import Mathlib

/-!
Verification development for the Hissp data-language compiler
(`hissp/compiler.py`).  The Python source is shallowly embedded:
pure compiler methods become Lean functions; the mutable compiler
attributes (`self.error`, the `NS` context variable, `self.ns`,
`self.abort`) become explicit state records; host-language execution
(`exec`/`eval` of emitted text) is an explicit parameter supplying the
outcome, since the host runtime is external to the compiler.
-/

namespace Hissp

/-- Python values that occur as Hissp forms and as self-denoting
literals fed to `Compiler.quoted`.  `nan` models `float('nan')`
(a number whose `repr` does not round-trip); `cyclicList` models the
self-referential list `spam = []; spam.append(spam)` from the
`Compiler.quoted` doctest, whose `pformat` is `[[...]]`. -/
inductive Obj where
  | noneV
  | boolV (b : Bool)
  | intV (n : Int)
  | nan
  | strV (s : String)
  | ellipsis
  | listV (xs : List Obj)
  | tupleV (xs : List Obj)
  | cyclicList

mutual

/-- Structural equality on values, modelling Python `==` on the
embedded value domain (used by the round-trip check in
`Compiler.quoted`). -/
def objEqB : Obj → Obj → Bool
  | .noneV, .noneV => true
  | .boolV a, .boolV b => a == b
  | .intV a, .intV b => a == b
  | .nan, .nan => true
  | .strV a, .strV b => a == b
  | .ellipsis, .ellipsis => true
  | .listV a, .listV b => objListEqB a b
  | .tupleV a, .tupleV b => objListEqB a b
  | .cyclicList, .cyclicList => true
  | _, _ => false

/-- Elementwise equality for value lists. -/
def objListEqB : List Obj → List Obj → Bool
  | [], [] => true
  | a :: as, b :: bs => objEqB a b && objListEqB as bs
  | _, _ => false

end

mutual

theorem objEqB_eq_true_iff : ∀ (a b : Obj), objEqB a b = true ↔ a = b
  | .noneV, b => by cases b <;> simp [objEqB]
  | .boolV a, b => by cases b <;> simp [objEqB]
  | .intV a, b => by cases b <;> simp [objEqB]
  | .nan, b => by cases b <;> simp [objEqB]
  | .strV a, b => by cases b <;> simp [objEqB]
  | .ellipsis, b => by cases b <;> simp [objEqB]
  | .listV xs, b => by
      cases b <;> simp [objEqB]
      exact objListEqB_eq_true_iff xs _
  | .tupleV xs, b => by
      cases b <;> simp [objEqB]
      exact objListEqB_eq_true_iff xs _
  | .cyclicList, b => by cases b <;> simp [objEqB]

theorem objListEqB_eq_true_iff : ∀ (as bs : List Obj), objListEqB as bs = true ↔ as = bs
  | [], bs => by cases bs <;> simp [objListEqB]
  | a :: as, bs => by
      cases bs with
      | nil => simp [objListEqB]
      | cons b bs =>
          simp [objListEqB, objEqB_eq_true_iff a b, objListEqB_eq_true_iff as bs]

end

/-! ## String helpers (Python `str` operations used by the compiler) -/

/-- The single-quote character. -/
def squote : Char := Char.ofNat 39

/-- The double-quote character. -/
def dquote : Char := Char.ofNat 34

/-- Prefix test on character lists. -/
def chStartsWith : List Char → List Char → Bool
  | _, [] => true
  | [], _ :: _ => false
  | a :: as, b :: bs => a == b && chStartsWith as bs

/-- Split a character list at the first occurrence of the non-empty
pattern `p`, returning the text before and after the pattern. -/
def chSplitFirst (p : List Char) : List Char → Option (List Char × List Char)
  | [] => none
  | c :: rest =>
    if chStartsWith (c :: rest) p then some ([], (c :: rest).drop p.length)
    else
      match chSplitFirst p rest with
      | some (pre, post) => some (c :: pre, post)
      | none => none

/-- Python `s.split(pat, 1)` when `pat` occurs in `s`: the text before
and after the first occurrence (`none` when `pat` does not occur). -/
def splitOnce (s pat : String) : Option (String × String) :=
  match chSplitFirst pat.toList s.toList with
  | some (pre, post) => some (String.mk pre, String.mk post)
  | none => none

/-- Python `s.replace(old, new, 1)`: replace the first occurrence only. -/
def replaceFirst (s old new : String) : String :=
  match splitOnce s old with
  | some (pre, post) => pre ++ new ++ post
  | none => s

/-- Python `pat in s` substring test. -/
def containsSub (s pat : String) : Bool := (splitOnce s pat).isSome

/-- Python `s.startswith(p)`. -/
def strStartsWith (s p : String) : Bool := chStartsWith s.toList p.toList

/-- Python `s.endswith(p)`. -/
def strEndsWith (s p : String) : Bool := chStartsWith s.toList.reverse p.toList.reverse

/-- Python `c in s` for a single character. -/
def strContainsChar (s : String) (c : Char) : Bool := s.toList.contains c

/-- Python `s.replace("\n", new)`: every compiler call site of
`str.replace` replaces the single newline character, so replacement is
per character. -/
def replaceNewlines (s new : String) : String :=
  String.mk ((s.toList.map fun c => if c = '\n' then new.toList else [c]).flatten)

/-- Python `s[k:]`. -/
def strDropLeft (s : String) (k : Nat) : String := String.mk (s.toList.drop k)

/-- Python `s[:-k]`. -/
def strDropRight (s : String) (k : Nat) : String :=
  String.mk (s.toList.take (s.toList.length - k))

/-! ## Python `repr`/`pprint.pformat` on the embedded value domain -/

/-- Escapes used by Python string `repr` (single-quote convention,
covering the escapes that occur in the embedded domain). -/
def pyEscapeChar (c : Char) : List Char :=
  if c = '\\' then ['\\', '\\']
  else if c = squote then ['\\', squote]
  else if c = '\n' then ['\\', 'n']
  else if c = '\t' then ['\\', 't']
  else if c = '\r' then ['\\', 'r']
  else [c]

/-- Python `repr` of a `str` value. -/
def pyReprStr (s : String) : String :=
  String.mk (squote :: (s.toList.map pyEscapeChar).flatten ++ [squote])

mutual

/-- Python `repr` of a value.  For the small values appearing here this
also models `pprint.pformat(form, sort_dicts=False)`, which agrees with
`repr` whenever the output fits on one line.  The self-referential list
prints as `[[...]]`, as in the `Compiler.quoted` doctest. -/
def reprV : Obj → String
  | .noneV => "None"
  | .boolV true => "True"
  | .boolV false => "False"
  | .intV n => toString n
  | .nan => "nan"
  | .strV s => pyReprStr s
  | .ellipsis => "Ellipsis"
  | .listV xs => "[" ++ reprElems xs ++ "]"
  | .tupleV [] => "()"
  | .tupleV [x] => "(" ++ reprV x ++ ",)"
  | .tupleV xs => "(" ++ reprElems xs ++ ")"
  | .cyclicList => "[[...]]"

/-- Comma-separated element list as printed by Python `repr`. -/
def reprElems : List Obj → String
  | [] => ""
  | [x] => reprV x
  | x :: xs => reprV x ++ ", " ++ reprElems xs

end

/-- Python `str()` of a value: identical to `repr` except on `str`
values, which convert to themselves (used by f-string interpolation in
`Compiler.parameters`). -/
def pyStr : Obj → String
  | .strV s => s
  | v => reprV v

/-! ## `ast.literal_eval`: a side-effect-free literal evaluator

Recursive-descent parser for the literal grammar accepted by
`ast.literal_eval` restricted to the embedded value domain: `None`,
booleans, integers (with unary sign), single- or double-quoted strings,
`...`, lists, tuples and grouping parentheses.  Anything else — in
particular the name `nan` — is rejected (`ValueError`/`SyntaxError` in
Python, `none` here). -/

/-- Skip spaces. -/
def skipSp : List Char → List Char
  | ' ' :: rest => skipSp rest
  | l => l

/-- Digits to a natural number. -/
def natOfDigits (ds : List Char) : Nat :=
  ds.foldl (fun a c => a * 10 + (c.toNat - 48)) 0

/-- Parse the body of a quoted string literal (opening quote already
consumed) up to the closing quote `q`, decoding escapes. -/
def parseStrLit : Nat → Char → List Char → Option (List Char × List Char)
  | 0, _, _ => none
  | _ + 1, _, [] => none
  | n + 1, q, c :: rest =>
    if c = q then some ([], rest)
    else if c = '\\' then
      match rest with
      | e :: rest2 =>
        let ch? : Option Char :=
          if e = 'n' then some '\n'
          else if e = 't' then some '\t'
          else if e = 'r' then some '\r'
          else if e = '\\' then some '\\'
          else if e = squote then some squote
          else if e = dquote then some dquote
          else none
        match ch? with
        | some ch =>
          match parseStrLit n q rest2 with
          | some (acc, rem) => some (ch :: acc, rem)
          | none => none
        | none => none
      | [] => none
    else
      match parseStrLit n q rest with
      | some (acc, rem) => some (c :: acc, rem)
      | none => none

/-- One fueled parsing function for both syntactic classes: with mode
`none` parse a single value; with mode `some close` parse a
comma-separated element list terminated by `close` (the opening bracket
already consumed).  Returns `Sum.inl` a value or `Sum.inr` a list. -/
def parseP : Nat → Option Char → List Char → Option ((Obj ⊕ List Obj) × List Char)
  | 0, _, _ => none
  | n + 1, some close, cs =>
    match skipSp cs with
    | [] => none
    | c :: rest =>
      if c = close then some (.inr [], rest)
      else
        match parseP n none (c :: rest) with
        | some (.inl v, r2) =>
          match skipSp r2 with
          | c2 :: r3 =>
            if c2 = close then some (.inr [v], r3)
            else if c2 = ',' then
              match parseP n (some close) r3 with
              | some (.inr vs, r4) => some (.inr (v :: vs), r4)
              | _ => none
            else none
          | [] => none
        | _ => none
  | n + 1, none, cs =>
    match skipSp cs with
    | '.' :: '.' :: '.' :: rest => some (.inl .ellipsis, rest)
    | 'N' :: 'o' :: 'n' :: 'e' :: rest => some (.inl .noneV, rest)
    | 'T' :: 'r' :: 'u' :: 'e' :: rest => some (.inl (.boolV true), rest)
    | 'F' :: 'a' :: 'l' :: 's' :: 'e' :: rest => some (.inl (.boolV false), rest)
    | '[' :: rest =>
      match parseP n (some ']') rest with
      | some (.inr vs, r2) => some (.inl (.listV vs), r2)
      | _ => none
    | '(' :: rest =>
      match skipSp rest with
      | ')' :: r2 => some (.inl (.tupleV []), r2)
      | r1 =>
        match parseP n none r1 with
        | some (.inl v, r2) =>
          match skipSp r2 with
          | ')' :: r3 => some (.inl v, r3)
          | ',' :: r3 =>
            (match skipSp r3 with
             | ')' :: r4 => some (.inl (.tupleV [v]), r4)
             | r4 =>
               match parseP n (some ')') r4 with
               | some (.inr vs, r5) => some (.inl (.tupleV (v :: vs)), r5)
               | _ => none)
          | _ => none
        | _ => none
    | '-' :: rest =>
      (match skipSp rest with
       | c :: r2 =>
         if c.isDigit then
           let ds := (c :: r2).takeWhile Char.isDigit
           some (.inl (.intV (-(natOfDigits ds : Int))), (c :: r2).dropWhile Char.isDigit)
         else none
       | [] => none)
    | '+' :: rest =>
      (match skipSp rest with
       | c :: r2 =>
         if c.isDigit then
           let ds := (c :: r2).takeWhile Char.isDigit
           some (.inl (.intV (natOfDigits ds : Int)), (c :: r2).dropWhile Char.isDigit)
         else none
       | [] => none)
    | c :: rest =>
      if c = squote then
        match parseStrLit n squote rest with
        | some (acc, rem) => some (.inl (.strV (String.mk acc)), rem)
        | none => none
      else if c = dquote then
        match parseStrLit n dquote rest with
        | some (acc, rem) => some (.inl (.strV (String.mk acc)), rem)
        | none => none
      else if c.isDigit then
        let ds := (c :: rest).takeWhile Char.isDigit
        some (.inl (.intV (natOfDigits ds : Int)), (c :: rest).dropWhile Char.isDigit)
      else none
    | [] => none

/-- `ast.literal_eval` on a whole string: parse one value and require
only whitespace to remain; `none` models the `ValueError`/`SyntaxError`
suppressed by `Compiler.quoted`. -/
def literalEval (s : String) : Option Obj :=
  match parseP (s.toList.length + 2) none s.toList with
  | some (.inl v, rest) => if (skipSp rest).isEmpty then some v else none
  | _ => none

/-! ## The pickle fallback (`Compiler.pickle`)

`pickle.dumps`/`pickle.loads` and `pickletools.optimize` are modelled
by a small opcode machine over the embedded value domain: `dumps` is a
postfix encoder, `loads` a stack machine, `optimize` removes the
redundant memo opcodes that the text protocol emits. -/

/-- Pickle opcodes of the model. -/
inductive POp where
  | pnone | ptrue | pfalse
  | pint (n : Int)
  | pnan
  | pstr (s : String)
  | pellipsis
  | plist (k : Nat)
  | ptuple (k : Nat)
  | pcyclic
  | pmemo

mutual

/-- Postfix opcode encoding of a value (the serializer core shared by
both pickle protocols of the model). -/
def encodeOps : Obj → List POp
  | .noneV => [.pnone]
  | .boolV true => [.ptrue]
  | .boolV false => [.pfalse]
  | .intV n => [.pint n]
  | .nan => [.pnan]
  | .strV s => [.pstr s]
  | .ellipsis => [.pellipsis]
  | .listV xs => encodeList xs ++ [.plist xs.length]
  | .tupleV xs => encodeList xs ++ [.ptuple xs.length]
  | .cyclicList => [.pcyclic]

/-- Encode list elements left to right. -/
def encodeList : List Obj → List POp
  | [] => []
  | x :: xs => encodeOps x ++ encodeList xs

end

/-- `pickle.dumps(form, 0)`: the most portable, human-auditable text
protocol.  It serializes the whole embedded domain (so the
`PicklingError` branch of `Compiler.pickle` cannot fire here); the
leading memo opcode models the redundant `PUT` opcodes of protocol 0
that `pickletools.optimize` later strips. -/
def dumpsProto0 (v : Obj) : Option (List POp) :=
  some (.pmemo :: encodeOps v)

/-- `pickle.dumps(form, pickle.HIGHEST_PROTOCOL)`: the most capable
binary protocol. -/
def dumpsHighest (v : Obj) : List POp :=
  encodeOps v

/-- `pickletools.optimize`: drop redundant memo opcodes. -/
def pickleOptimize (ops : List POp) : List POp :=
  ops.filter fun op =>
    match op with
    | .pmemo => false
    | _ => true

/-- The serialized bytes emitted by `Compiler.pickle`: try protocol 0
first, fall back to the highest protocol only if that serialization
itself fails, then compact with `pickletools.optimize`. -/
def pickleBytes (v : Obj) : List POp :=
  pickleOptimize
    (match dumpsProto0 v with
     | some b => b
     | none => dumpsHighest v)

/-- The pickle stack machine (`pickle.loads`).  Memo opcodes are
no-ops; `pcyclic` rebuilds the self-referential list via the memo, as
protocol 0 does with `(lp0\ng0\na.`. -/
def runOps : List POp → List Obj → Option Obj
  | [], [v] => some v
  | [], _ => none
  | op :: rest, st =>
    match op with
    | .pnone => runOps rest (.noneV :: st)
    | .ptrue => runOps rest (.boolV true :: st)
    | .pfalse => runOps rest (.boolV false :: st)
    | .pint n => runOps rest (.intV n :: st)
    | .pnan => runOps rest (.nan :: st)
    | .pstr s => runOps rest (.strV s :: st)
    | .pellipsis => runOps rest (.ellipsis :: st)
    | .plist k => runOps rest (.listV ((st.take k).reverse) :: st.drop k)
    | .ptuple k => runOps rest (.tupleV ((st.take k).reverse) :: st.drop k)
    | .pcyclic => runOps rest (.cyclicList :: st)
    | .pmemo => runOps rest st

/-- `pickle.loads` on a whole opcode stream. -/
def loadsOps (ops : List POp) : Option Obj :=
  runOps ops []

/-- Rendering of one opcode inside the emitted bytes literal. -/
def reprOp : POp → String
  | .pnone => "N."
  | .ptrue => "I1."
  | .pfalse => "I0."
  | .pint n => "L" ++ toString n ++ "."
  | .pnan => "Fnan."
  | .pstr s => "S" ++ pyReprStr s ++ "."
  | .pellipsis => "X."
  | .plist k => "l" ++ toString k ++ "."
  | .ptuple k => "t" ++ toString k ++ "."
  | .pcyclic => "(lg.a."
  | .pmemo => "p0."

/-- Python `repr` of the serialized bytes object. -/
def reprBytes (ops : List POp) : String :=
  String.mk [dquote] ++ String.join (ops.map reprOp) ++ String.mk [dquote]

/-- `Compiler.pickle`: the final fallback for `Compiler.quoted`.  Emits
a deserialization expression annotated with a comment holding the
value's `repr`. -/
def pickleExpr (v : Obj) : String :=
  "__import__(" ++ pyReprStr "pickle" ++ ").loads(  # " ++ reprV v ++
    "\n    " ++ reprBytes (pickleBytes v) ++ "\n)"

/-! ## `Compiler.quoted`: literals with round-trip check -/

/-- The `literal` candidate text built by `Compiler.quoted` before the
round-trip check: numbers are wrapped in parentheses (needed for member
access such as `(1).real`), collections and strings are pretty-printed,
everything else uses `repr`. -/
def quotedLit (v : Obj) : String :=
  match v with
  | .intV _ => "(" ++ reprV v ++ ")"
  | .nan => "(" ++ reprV v ++ ")"
  | _ => reprV v

/-- `Compiler.quoted`: compile a form that evaluates to itself.  A pure
`...` is special-cased; otherwise the candidate literal is accepted only
if `ast.literal_eval` parses it back to an equal value, else the pickle
fallback is emitted. -/
def quoted (v : Obj) : String :=
  match v with
  | .ellipsis => "..."
  | _ =>
    let lit := quotedLit v
    match literalEval lit with
    | some w => if objEqB w v then lit else pickleExpr v
    | none => pickleExpr v

mutual

/-- Running the encoding of `v` pushes `v` (serializer/deserializer
round-trip, value case). -/
theorem runOps_encode : ∀ (v : Obj) (rest : List POp) (st : List Obj),
    runOps (encodeOps v ++ rest) st = runOps rest (v :: st)
  | .noneV, rest, st => by simp [encodeOps, runOps]
  | .boolV true, rest, st => by simp [encodeOps, runOps]
  | .boolV false, rest, st => by simp [encodeOps, runOps]
  | .intV n, rest, st => by simp [encodeOps, runOps]
  | .nan, rest, st => by simp [encodeOps, runOps]
  | .strV s, rest, st => by simp [encodeOps, runOps]
  | .ellipsis, rest, st => by simp [encodeOps, runOps]
  | .listV xs, rest, st => by
      rw [encodeOps, List.append_assoc, runOps_encodeList xs]
      simp [runOps]
  | .tupleV xs, rest, st => by
      rw [encodeOps, List.append_assoc, runOps_encodeList xs]
      simp [runOps]
  | .cyclicList, rest, st => by simp [encodeOps, runOps]

/-- Running the encoding of a list of values pushes them in reverse
(round-trip, element-list case). -/
theorem runOps_encodeList : ∀ (xs : List Obj) (rest : List POp) (st : List Obj),
    runOps (encodeList xs ++ rest) st = runOps rest (xs.reverse ++ st)
  | [], rest, st => by simp [encodeList]
  | x :: xs, rest, st => by
      rw [encodeList, List.append_assoc, runOps_encode x, runOps_encodeList xs]
      simp

end

mutual

/-- The value encoder emits no memo opcodes, so `pickletools.optimize`
leaves it unchanged. -/
theorem pickleOptimize_encode : ∀ v : Obj, pickleOptimize (encodeOps v) = encodeOps v
  | .noneV => by simp [encodeOps, pickleOptimize]
  | .boolV true => by simp [encodeOps, pickleOptimize]
  | .boolV false => by simp [encodeOps, pickleOptimize]
  | .intV n => by simp [encodeOps, pickleOptimize]
  | .nan => by simp [encodeOps, pickleOptimize]
  | .strV s => by simp [encodeOps, pickleOptimize]
  | .ellipsis => by simp [encodeOps, pickleOptimize]
  | .listV xs => by
      have h := pickleOptimize_encodeList xs
      simp only [encodeOps, pickleOptimize, List.filter_append] at *
      simp [h]
  | .tupleV xs => by
      have h := pickleOptimize_encodeList xs
      simp only [encodeOps, pickleOptimize, List.filter_append] at *
      simp [h]
  | .cyclicList => by simp [encodeOps, pickleOptimize]

/-- Element-list version of `pickleOptimize_encode`. -/
theorem pickleOptimize_encodeList : ∀ xs : List Obj,
    pickleOptimize (encodeList xs) = encodeList xs
  | [] => by simp [encodeList, pickleOptimize]
  | x :: xs => by
      have h1 := pickleOptimize_encode x
      have h2 := pickleOptimize_encodeList xs
      simp only [encodeList, pickleOptimize, List.filter_append] at *
      simp [h1, h2]

end

/-- Deserializing the emitted bytes reproduces the original value. -/
theorem loadsOps_pickleBytes (v : Obj) : loadsOps (pickleBytes v) = some v := by
  have hb : pickleBytes v = encodeOps v := by
    have h := pickleOptimize_encode v
    simp only [pickleBytes, dumpsProto0, pickleOptimize] at *
    simpa using h
  rw [hb, loadsOps, ← List.append_nil (encodeOps v), runOps_encode]
  rfl

/-! ## Host exceptions, namespaces and macro callables -/

/-- The host exceptions that the compiler's code paths can raise or
catch. -/
inductive PyExc where
  | keyError (k : String)
  | attributeError (a : String)
  | importError (m : String)
  | indexError
  | typeError
  | valueError
  | stopIteration
  | assertionError
  | recursionError
  | compileError (m : String)

/-- `type(e).__name__` for the diagnostic text of `_trace`. -/
def excName : PyExc → String
  | .keyError _ => "KeyError"
  | .attributeError _ => "AttributeError"
  | .importError _ => "ImportError"
  | .indexError => "IndexError"
  | .typeError => "TypeError"
  | .valueError => "ValueError"
  | .stopIteration => "StopIteration"
  | .assertionError => "AssertionError"
  | .recursionError => "RecursionError"
  | .compileError _ => "CompileError"

/-- `str(e)` for the diagnostic text of `_trace`. -/
def excMsg : PyExc → String
  | .keyError k => pyReprStr k
  | .attributeError a => a
  | .importError m => m
  | .compileError m => m
  | _ => ""

/-- The exception classes caught by `Compiler._qualified_macro`
(`except (KeyError, AttributeError)`). -/
def isKeyOrAttrErr : PyExc → Bool
  | .keyError _ => true
  | .attributeError _ => true
  | _ => false

/-- A macro callable: ordinary host code receiving the form's remaining
elements as raw, uncompiled forms and returning a replacement form.
Modelled as a small closed language so it stays strictly positive:
macros can return fixed forms, echo arguments, raise, or read the `NS`
context variable (as `hissp` macros may). -/
inductive MacroDef where
  | ret (o : Obj)
  | retArg (i : Nat)
  | raises (e : PyExc)
  | nsName

/-- A namespace (module dict): its `__name__` and, when the module owns
a macro container, the `_macro_` entry mapping names to macro
callables (`none` models a namespace without a `_macro_` key). -/
structure Ns where
  name : String
  macroDefs : Option (List (String × MacroDef))

/-- Association-list lookup (Python dict / `vars()` access). -/
def lookupStr {α : Type} : List (String × α) → String → Option α
  | [], _ => none
  | (k, v) :: rest, key => if k = key then some v else lookupStr rest key

/-- Invoke a macro callable on raw argument forms.  The third argument
is the current value of the `NS` context variable at invocation time.
A wrong argument count raises `TypeError`, as a host call would. -/
def applyMacroDef : MacroDef → List Obj → Option Ns → Except PyExc Obj
  | .ret o, _, _ => .ok o
  | .retArg i, args, _ =>
    match args[i]? with
    | some a => .ok a
    | none => .error .typeError
  | .raises e, _, _ => .error e
  | .nsName, _, some ns => .ok (.strV ns.name)
  | .nsName, _, none => .error (.attributeError "get")

/-- The compiler attributes fixed for the duration of a `form` call:
`self.qualname`, `self.ns` (its identity is never reassigned inside the
form compiler), and the host import system used when a qualified macro
reference is evaluated. -/
structure CEnv where
  qualname : String
  ns : Ns
  mods : List (String × Ns)

/-- The state the form compiler mutates: `self.error` (truthiness of
the recorded exception) and the `NS` context variable (`none` is its
`()` default). -/
structure CSt where
  err : Bool
  nsVar : Option Ns

/-- The text produced by the `_trace` decorator when a compiling method
raises: the offending form between fish brackets followed by the
commented-out diagnostic. -/
def errText (method : String) (e : PyExc) (expr : Obj) : String :=
  "(>   >  > >>" ++ reprV expr ++ "<< <  <   <)" ++
    replaceNewlines ("\nCompiler." ++ method ++ "() " ++ excName e ++ ":\n " ++ excMsg e) "\n# "

/-- `MACROS`: the module macro container name. -/
def macroContainer : String := "_macro_"

/-- `MACRO`: a macro from a foreign module, `foo.bar.._macro_.baz`. -/
def macroMarker : String := ".._macro_."

/-- The auto-qualification placeholder marker. -/
def autoMarker : String := "..xAUTO_."

/-- `RE_MACRO.split(head, 1)` on character lists: split at the first
occurrence of either marker, keeping the matched separator. -/
def reSplitChars : List Char → Option (List Char × String × List Char)
  | [] => none
  | c :: rest =>
    if chStartsWith (c :: rest) macroMarker.toList then
      some ([], macroMarker, (c :: rest).drop macroMarker.length)
    else if chStartsWith (c :: rest) autoMarker.toList then
      some ([], autoMarker, (c :: rest).drop autoMarker.length)
    else
      match reSplitChars rest with
      | some (pre, m, post) => some (c :: pre, m, post)
      | none => none

/-- `RE_MACRO.split(head, 1)` when a marker occurs: the part before the
first marker, the marker itself, and the part after. -/
def reSplitMacroHead (s : String) : Option (String × String × String) :=
  match reSplitChars s.toList with
  | some (pre, m, post) => some (String.mk pre, m, String.mk post)
  | none => none

/-! ## `Compiler.symbol`: the symbol resolver -/

/-- `re.search(r"^\.\.|[ ()]", symbol)`: Ellipsis or host-language
injection, emitted verbatim. -/
def isRawSymbol (s : String) : Bool :=
  strStartsWith s ".." || s.toList.any fun c => c = ' ' || c = '(' || c = ')'

/-- The shadowing-proof global lookup emitted for a same-module
qualified symbol's first attribute. -/
def globalsRef (name : String) : String :=
  "__import__(" ++ pyReprStr "builtins" ++ ").globals()[" ++ quoted (.strV name) ++ "]"

/-- The dynamic-import expression for a foreign qualified symbol. -/
def importExpr (modPart attrPath : String) : String :=
  "__import__(" ++ pyReprStr modPart ++
    (if strContainsChar modPart '.' then ",fromlist=" ++ pyReprStr "?" else "") ++
    ")." ++ attrPath

/-- `Compiler.symbol`. -/
def symbolC (env : CEnv) (symbol : String) : String :=
  if isRawSymbol symbol then symbol
  else
    match splitOnce symbol ".." with
    | some (p0, p1) =>
      if p0 = env.qualname then
        match splitOnce p1 "." with
        | some (c0, crest) => globalsRef c0 ++ "." ++ crest
        | none => globalsRef p1
      else importExpr p0 p1
    | none =>
      if strEndsWith symbol "." then
        let m := strDropRight symbol 1
        "__import__(" ++ pyReprStr m ++
          (if strContainsChar m '.' then ",fromlist=" ++ pyReprStr "?" else "") ++ ")"
      else symbol

/-! ## Macro resolution (`Compiler._get_macro` and helpers) -/

/-- Host evaluation of `eval(self.symbol(head))` for a foreign
qualified macro reference `mod.._macro_.name`: import the module from
the host import system, then chain attribute access.  A missing module
raises `ImportError`; a missing attribute raises `AttributeError`. -/
def evalMacroRef (mods : List (String × Ns)) (head2 : String) : Except PyExc MacroDef :=
  match splitOnce head2 ".." with
  | none => .error .valueError
  | some (m, rest) =>
    match lookupStr mods m with
    | none => .error (.importError m)
    | some pm =>
      match splitOnce rest "." with
      | none => .error (.attributeError rest)
      | some (a1, a2) =>
        if a1 = macroContainer then
          match pm.macroDefs with
          | none => .error (.attributeError a1)
          | some ds =>
            match lookupStr ds a2 with
            | none => .error (.attributeError a2)
            | some d => .ok d
        else .error (.attributeError a1)

/-- The `try` block of `Compiler._qualified_macro`: an internal
reference looks the tail up in the local macro container (`KeyError` on
absence); a foreign one evaluates the qualified symbol. -/
def resolveQualified (env : CEnv) (head2 pre post : String) : Except PyExc MacroDef :=
  if pre = env.qualname then
    match env.ns.macroDefs with
    | none => .error (.keyError macroContainer)
    | some ds =>
      match lookupStr ds post with
      | none => .error (.keyError post)
      | some d => .ok d
  else evalMacroRef env.mods head2

/-- `Compiler._get_macro`: split the head on the macro markers, rewrite
the auto-qualification placeholder to the plain macro marker, then
resolve.  For a qualified head, `KeyError`/`AttributeError` is
re-raised unless the matched separator was the auto-qualification
marker, in which case the head is treated as naming no macro.  An
unqualified head is looked up in the local macro container, absence
meaning no macro. -/
def findMacroDef (env : CEnv) (head : String) : Except PyExc (Option MacroDef) :=
  let head2 := replaceFirst head autoMarker macroMarker
  match reSplitMacroHead head with
  | some (pre, sep, post) =>
    match resolveQualified env head2 pre post with
    | .ok d => .ok (some d)
    | .error e =>
      if isKeyOrAttrErr e then
        if sep ≠ autoMarker then .error e else .ok none
      else .error e
  | none =>
    match env.ns.macroDefs with
    | none => .ok none
    | some ds => .ok (lookupStr ds head2)

/-! ## Argument and parameter rendering helpers -/

/-- `_join_args`. -/
def joinArgs (args : List String) : String :=
  replaceNewlines ((if args.isEmpty then "" else "\n") ++ String.intercalate ",\n" args) "\n  "

/-- Is this form the `:` control word separating positional from paired
elements? -/
def isColonWord : Obj → Bool
  | .strV s => s = ":"
  | _ => false

/-- Method-call sugar test of `Compiler.call`: a string head beginning
with a dot names a method on the first argument; the result is the
method name without its dot. -/
def methodName : Obj → Option String
  | .strV h => if strStartsWith h "." then some (strDropLeft h 1) else none
  | _ => none

/-- Equality of a form with a control-word string. -/
def isStrEq : Obj → String → Bool
  | .strV s, t => s = t
  | _, _ => false

/-- The single-parameter segment of `Compiler.parameters`: strings pass
through, with the positional-only boundary and bare-star control words
rewritten; joining a non-string raises `TypeError`. -/
def renderSingles : List Obj → Except PyExc (List String)
  | [] => .ok []
  | a :: rest =>
    match a with
    | .strV s =>
      let t := if s = ":/" then "/" else if s = ":*" then "*" else s
      match renderSingles rest with
      | .ok ts => .ok (t :: ts)
      | .error e => .error e
    | _ => .error .typeError

/-- Iterating a parameters object, as `iter()` would. -/
def iterElems : Obj → Except PyExc (List Obj)
  | .tupleV xs => .ok xs
  | .listV xs => .ok xs
  | .strV s => .ok (s.toList.map fun c => .strV (String.mk [c]))
  | .cyclicList => .ok [.cyclicList]
  | _ => .error .typeError

/-! ## The form compiler (`Compiler.form` and the methods it drives)

The mutual block is fueled: fuel exhaustion models the host
`RecursionError` on unbounded macro recursion.  Every traced method
returns its text and the updated mutable state; an exception inside a
traced method becomes the `_trace` diagnostic text plus a set error
flag, exactly as the decorator behaves. -/

mutual

/-- `Compiler.form`: dispatch on the form's shape. -/
def formC : Nat → CEnv → CSt → Obj → String × CSt
  | 0, _, s, f => (errText "form" .recursionError f, {s with err := true})
  | n + 1, env, s, f =>
    match f with
    | .tupleV (_ :: _) => tupleC n env s f
    | .strV s0 =>
      if strStartsWith s0 ":" then (quoted f, s) else (symbolC env s0, s)
    | _ => (quoted f, s)

/-- `Compiler.tuple`: calls, macros, special forms. -/
def tupleC : Nat → CEnv → CSt → Obj → String × CSt
  | 0, _, s, f => (errText "tuple" .recursionError f, {s with err := true})
  | n + 1, env, s, f =>
    match f with
    | .tupleV (.strV _ :: _) => specialC n env s f
    | .tupleV (_ :: _) => callC n env s f
    | _ => (errText "tuple" .valueError f, {s with err := true})

/-- `Compiler.special`: `quote` and `lambda`, else invocation.  `quote`
returns the literal encoding of `form[1]` (an `IndexError` when there
is no operand). -/
def specialC : Nat → CEnv → CSt → Obj → String × CSt
  | 0, _, s, f => (errText "special" .recursionError f, {s with err := true})
  | n + 1, env, s, f =>
    match f with
    | .tupleV xs =>
      match xs with
      | [] => (errText "special" .indexError f, {s with err := true})
      | x0 :: rest =>
        if isStrEq x0 "quote" then
          match rest with
          | op :: _ => (quoted op, s)
          | [] => (errText "special" .indexError f, {s with err := true})
        else if isStrEq x0 "lambda" then functionC n env s f
        else invocC n env s f
    | _ => (errText "special" .typeError f, {s with err := true})

/-- `Compiler.invocation`: try to compile as macro, else rewrite the
first auto-qualification marker in the head to a plain qualifier and
compile as a call.  A truthy macro result is annotated with a comment
naming the macro that fired. -/
def invocC : Nat → CEnv → CSt → Obj → String × CSt
  | 0, _, s, f => (errText "invocation" .recursionError f, {s with err := true})
  | n + 1, env, s, f =>
    match f with
    | .tupleV (.strV h :: tail) =>
      let (r?, s1) := macroExpandC n env s f
      match r? with
      | some r =>
        if r = "" then
          callC n env s1 (.tupleV (.strV (replaceFirst h autoMarker "..") :: tail))
        else ("# " ++ h ++ "\n" ++ r, s1)
      | none => callC n env s1 (.tupleV (.strV (replaceFirst h autoMarker "..") :: tail))
    | _ => (errText "invocation" .typeError f, {s with err := true})

/-- `Compiler.macro`: resolve the head; when a macro is found, set the
`NS` context variable to the current namespace, invoke the macro on the
raw argument forms, recompile the expansion, and restore the context
variable on every exit path (the `macro_context` manager's
`try`/`finally`).  `none` means no macro was found. -/
def macroExpandC : Nat → CEnv → CSt → Obj → Option String × CSt
  | 0, _, s, f => (some (errText "macro" .recursionError f), {s with err := true})
  | n + 1, env, s, f =>
    match f with
    | .tupleV (.strV h :: tail) =>
      match findMacroDef env h with
      | .error e => (some (errText "macro" e f), {s with err := true})
      | .ok none => (none, s)
      | .ok (some m) =>
        let saved := s.nsVar
        let s1 : CSt := { s with nsVar := some env.ns }
        match applyMacroDef m tail s1.nsVar with
        | .error e => (some (errText "macro" e f), { s1 with nsVar := saved, err := true })
        | .ok expansion =>
          let (t, s2) := formC n env s1 expansion
          (some t, { s2 with nsVar := saved })
    | _ => (some (errText "macro" .typeError f), {s with err := true})

/-- `Compiler.call`: render a runtime call, including the method-call
sugar for heads beginning with a dot. -/
def callC : Nat → CEnv → CSt → Obj → String × CSt
  | 0, _, s, f => (errText "call" .recursionError f, {s with err := true})
  | n + 1, env, s, f =>
    match f with
    | .tupleV (head :: rest) =>
      let pos := rest.takeWhile fun a => !isColonWord a
      let kws := (rest.dropWhile fun a => !isColonWord a).drop 1
      match methodName head with
      | some mn =>
        let (posTs, s1) := compileArgsC n env s pos
        let (res, s2) := compileKwC n env s1 kws
        match res with
        | .error e => (errText "call" e f, {s2 with err := true})
        | .ok kwTs =>
          match posTs ++ kwTs with
          | [] => (errText "call" .stopIteration f, {s2 with err := true})
          | recv :: args =>
            (recv ++ "." ++ mn ++ "(" ++ joinArgs args ++ ")", s2)
      | none =>
        let (headT, s1) := formC n env s head
        let (posTs, s2) := compileArgsC n env s1 pos
        let (res, s3) := compileKwC n env s2 kws
        match res with
        | .error e => (errText "call" e f, {s3 with err := true})
        | .ok kwTs => (headT ++ "(" ++ joinArgs (posTs ++ kwTs) ++ ")", s3)
    | .tupleV [] => (errText "call" .stopIteration f, {s with err := true})
    | _ => (errText "call" .typeError f, {s with err := true})

/-- `Compiler.function`: the `lambda` special form. -/
def functionC : Nat → CEnv → CSt → Obj → String × CSt
  | 0, _, s, f => (errText "function" .recursionError f, {s with err := true})
  | n + 1, env, s, f =>
    match f with
    | .tupleV (fn :: params :: body) =>
      if isStrEq fn "lambda" then
        match iterElems params with
        | .error e => (errText "function" e f, {s with err := true})
        | .ok ps =>
          let (res, s1) := paramsC n env s ps
          match res with
          | .error e => (errText "function" e f, {s1 with err := true})
          | .ok pts =>
            let (bt, s2) := bodyC n env s1 body
            ("(lambda " ++ String.intercalate "," pts ++ ":" ++ bt ++ ")", s2)
      else (errText "function" .assertionError f, {s with err := true})
    | _ => (errText "function" .valueError f, {s with err := true})

/-- `Compiler.parameters`: the single segment, then the paired
segment. -/
def paramsC : Nat → CEnv → CSt → List Obj → Except PyExc (List String) × CSt
  | 0, _, s, _ => (.error .recursionError, s)
  | n + 1, env, s, ps =>
    let singles := ps.takeWhile fun a => !isColonWord a
    let rest := (ps.dropWhile fun a => !isColonWord a).drop 1
    match renderSingles singles with
    | .error e => (.error e, s)
    | .ok sts =>
      let (res, s1) := paramPairsC n env s rest
      match res with
      | .ok ts => (.ok (sts ++ ts), s1)
      | .error e => (.error e, s1)

/-- The paired-parameter loop of `Compiler.parameters`: `_pairs` raises
`CompileError` on an odd count; keys classify into variadic markers,
the positional-only boundary, required keyword-only names, and names
with compiled defaults. -/
def paramPairsC : Nat → CEnv → CSt → List Obj → Except PyExc (List String) × CSt
  | 0, _, s, _ => (.error .recursionError, s)
  | n + 1, env, s, ps =>
    match ps with
    | [] => (.ok [], s)
    | [_] => (.error (.compileError "Incomplete pair."), s)
    | k :: v :: rest =>
      if isStrEq k ":*" then
        let t := if isStrEq v ":?" then "*" else "*" ++ pyStr v
        let (res, s1) := paramPairsC n env s rest
        match res with
        | .ok ts => (.ok (t :: ts), s1)
        | .error e => (.error e, s1)
      else if isStrEq k ":/" then
        let (res, s1) := paramPairsC n env s rest
        match res with
        | .ok ts => (.ok ("/" :: ts), s1)
        | .error e => (.error e, s1)
      else if isStrEq k ":**" then
        let (res, s1) := paramPairsC n env s rest
        match res with
        | .ok ts => (.ok (("**" ++ pyStr v) :: ts), s1)
        | .error e => (.error e, s1)
      else if isStrEq v ":?" then
        match k with
        | .strV ks =>
          let (res, s1) := paramPairsC n env s rest
          match res with
          | .ok ts => (.ok (ks :: ts), s1)
          | .error e => (.error e, s1)
        | _ => (.error .typeError, s)
      else
        let (vt, s1) := formC n env s v
        let (res, s2) := paramPairsC n env s1 rest
        match res with
        | .ok ts => (.ok ((pyStr k ++ "=" ++ vt) :: ts), s2)
        | .error e => (.error e, s2)

/-- `Compiler.body`: implicit PROGN for multiple forms, `()` for an
empty body, otherwise the single form indented. -/
def bodyC : Nat → CEnv → CSt → List Obj → String × CSt
  | 0, _, s, body => (errText "body" .recursionError (.listV body), {s with err := true})
  | n + 1, env, s, body =>
    if 1 < body.length then
      let (ts, s1) := compileArgsC n env s body
      ("(" ++ joinArgs ts ++ ")[-1]", s1)
    else
      match body with
      | [] => ("()", s)
      | b :: _ =>
        let (r, s1) := formC n env s b
        ((replaceNewlines (if strContainsChar r '\n' then "\n" ++ r else r) "\n  "), s1)

/-- `map(self.form, ...)`: compile forms in order, threading state. -/
def compileArgsC : Nat → CEnv → CSt → List Obj → List String × CSt
  | 0, _, s, _ => ([], {s with err := true})
  | n + 1, env, s, xs =>
    match xs with
    | [] => ([], s)
    | x :: rest =>
      let (t, s1) := formC n env s x
      let (ts, s2) := compileArgsC n env s1 rest
      (t :: ts, s2)

/-- The paired segment of `Compiler.call`: `_pairs` raises
`CompileError` on an odd count; each key maps through `PAIR_WORDS`
(so the unpacking markers render as stars and `:?` as nothing), any
other string key becomes `name=`, and a non-string key raises
`TypeError` from the eager `k + '='` default. -/
def compileKwC : Nat → CEnv → CSt → List Obj → Except PyExc (List String) × CSt
  | 0, _, s, _ => (.error .recursionError, s)
  | n + 1, env, s, ps =>
    match ps with
    | [] => (.ok [], s)
    | [_] => (.error (.compileError "Incomplete pair."), s)
    | k :: v :: rest =>
      match k with
      | .strV ks =>
        let pre :=
          if ks = ":*" then "*"
          else if ks = ":**" then "**"
          else if ks = ":?" then ""
          else ks ++ "="
        let (vt, s1) := formC n env s v
        let (res, s2) := compileKwC n env s1 rest
        match res with
        | .ok ts => (.ok ((pre ++ vt) :: ts), s2)
        | .error e => (.error e, s2)
      | _ => (.error .typeError, s)

end

/-! ## The evaluation/abort pipeline (`Compiler.compile`, `Compiler.eval`)

Host execution of the emitted text (`exec(compile(form, "<Hissp>",
"exec"), self.ns)`) is external to the compiler, so its outcome is an
explicit function argument: given the emitted text and the namespace it
runs against, it either succeeds with the mutated namespace or raises,
carrying `str(e)`, the `format_exc()` trace, and the partially mutated
namespace. -/

/-- Outcome of executing one compiled form in the host runtime. -/
inductive ExecRes where
  | ok (ns2 : Ns)
  | exc (msg : String) (trace : String) (ns2 : Ns)

/-- Whole-compiler state for the pipeline: the fixed attributes, the
form-compiler state, the abort flag, and the warnings recorded by
`warnings.warn`. -/
structure PSt where
  qualname : String
  ns : Ns
  mods : List (String × Ns)
  evaluate : Bool
  cst : CSt
  abort : Bool
  warnings : List String

/-- The read-only view the form compiler uses. -/
def PSt.toEnv (p : PSt) : CEnv :=
  { qualname := p.qualname, ns := p.ns, mods := p.mods }

/-- `"# " + exc.replace("\n", "\n# ")`: a commented-out failure trace. -/
def commentTrace (trace : String) : String :=
  "# " ++ replaceNewlines trace "\n# "

/-- The `PostCompileWarning` message of the non-fatal branch of
`Compiler.eval`. -/
def warnText (msg form trace : String) : String :=
  "\n " ++ msg ++ " when evaluating form:\n" ++ form ++ "\n\n" ++ trace

/-- `Compiler.eval`: execute one compiled form when evaluation is
enabled.  On failure, a namespace named `__main__` sets the abort flag,
any other namespace records a warning; either way the failing text and
its commented-out trace are returned for the result. -/
def evalC (exec : String → Ns → ExecRes) (p : PSt) (form : String) : List String × PSt :=
  if p.evaluate then
    match exec form p.ns with
    | .ok ns2 => ([form], { p with ns := ns2 })
    | .exc msg trace ns2 =>
      if p.ns.name = "__main__" then
        ([form, commentTrace trace], { p with ns := ns2, abort := true })
      else
        ([form, commentTrace trace],
         { p with ns := ns2, warnings := p.warnings ++ [warnText msg form trace] })
  else ([form], p)

/-- How a pipeline run ends: a normal return of the joined text, a
`CompileError` raised after a failed form compilation, or `sys.exit(1)`
after printing everything compiled so far. -/
inductive POut where
  | done (text : String) (p : PSt)
  | compileErr (msg : String) (p : PSt)
  | exited (code : Nat) (printed : String) (p : PSt)

/-- The loop of `Compiler.compile` with its accumulated `result`
list. -/
def compileSeqAux (n : Nat) (exec : String → Ns → ExecRes) :
    PSt → List String → List Obj → POut
  | p, acc, [] => .done (String.intercalate "\n\n" acc) p
  | p, acc, f :: rest =>
    let (t, c1) := formC n p.toEnv p.cst f
    let p1 := { p with cst := c1 }
    if c1.err then
      .compileErr ("\n" ++ t) { p1 with cst := { c1 with err := false } }
    else
      let (parts, p2) := evalC exec p1 t
      let acc2 := acc ++ parts
      if p2.abort then .exited 1 (String.intercalate "\n\n" acc2) p2
      else compileSeqAux n exec p2 acc2 rest

/-- `Compiler.compile`: drive compile-then-execute over a form
sequence. -/
def compileSeq (n : Nat) (exec : String → Ns → ExecRes) (p : PSt) (forms : List Obj) : POut :=
  compileSeqAux n exec p [] forms

/-! ## Output purity

The text every compiling method emits is independent of the mutable
state (the recorded-error flag and the `NS` context variable): those
are written along the way but never read on an emitting path — the `NS`
variable is always set to the current namespace immediately before the
one place it is consulted (macro invocation). -/

/-- All twelve compiling functions emit state-independent text at fuel
`n`. -/
def PureAt (n : Nat) : Prop :=
  (∀ env s t f, (formC n env s f).1 = (formC n env t f).1) ∧
  (∀ env s t f, (tupleC n env s f).1 = (tupleC n env t f).1) ∧
  (∀ env s t f, (specialC n env s f).1 = (specialC n env t f).1) ∧
  (∀ env s t f, (invocC n env s f).1 = (invocC n env t f).1) ∧
  (∀ env s t f, (macroExpandC n env s f).1 = (macroExpandC n env t f).1) ∧
  (∀ env s t f, (callC n env s f).1 = (callC n env t f).1) ∧
  (∀ env s t f, (functionC n env s f).1 = (functionC n env t f).1) ∧
  (∀ env s t ps, (paramsC n env s ps).1 = (paramsC n env t ps).1) ∧
  (∀ env s t ps, (paramPairsC n env s ps).1 = (paramPairsC n env t ps).1) ∧
  (∀ env s t body, (bodyC n env s body).1 = (bodyC n env t body).1) ∧
  (∀ env s t xs, (compileArgsC n env s xs).1 = (compileArgsC n env t xs).1) ∧
  (∀ env s t ps, (compileKwC n env s ps).1 = (compileKwC n env t ps).1)

theorem pureAll : ∀ n, PureAt n := by
  intro n
  induction n with
  | zero =>
    refine ⟨?_, ?_, ?_, ?_, ?_, ?_, ?_, ?_, ?_, ?_, ?_, ?_⟩ <;> intro env s t x <;> rfl
  | succ n ih =>
    obtain ⟨ihF, ihT, ihS, ihI, ihM, ihC, ihFn, ihP, ihPP, ihB, ihA, ihK⟩ := ih
    have hForm : ∀ env s t f, (formC (n + 1) env s f).1 = (formC (n + 1) env t f).1 := by
      intro env s t f
      cases f with
      | strV s0 => by_cases h : strStartsWith s0 ":" <;> simp [formC, h]
      | tupleV xs =>
        cases xs with
        | nil => rfl
        | cons a as => simpa [formC] using ihT env s t (.tupleV (a :: as))
      | _ => rfl
    have hArgs : ∀ env s t xs,
        (compileArgsC (n + 1) env s xs).1 = (compileArgsC (n + 1) env t xs).1 := by
      intro env s t xs
      cases xs with
      | nil => rfl
      | cons x rest =>
        rcases hs1 : formC n env s x with ⟨a1, s1⟩
        rcases ht1 : formC n env t x with ⟨b1, t1⟩
        have h1 := ihF env s t x
        rw [hs1, ht1] at h1; simp only at h1
        rcases hs2 : compileArgsC n env s1 rest with ⟨as2, s2⟩
        rcases ht2 : compileArgsC n env t1 rest with ⟨bs2, t2⟩
        have h2 := ihA env s1 t1 rest
        rw [hs2, ht2] at h2; simp only at h2
        simp [compileArgsC, hs1, ht1, hs2, ht2, h1, h2]
    have hKw : ∀ env s t ps,
        (compileKwC (n + 1) env s ps).1 = (compileKwC (n + 1) env t ps).1 := by
      intro env s t ps
      cases ps with
      | nil => rfl
      | cons k ps1 =>
        cases ps1 with
        | nil => rfl
        | cons v rest =>
          cases k
          case strV ks =>
            rcases hs1 : formC n env s v with ⟨a1, s1⟩
            rcases ht1 : formC n env t v with ⟨b1, t1⟩
            have h1 := ihF env s t v
            rw [hs1, ht1] at h1; simp only at h1
            rcases hs2 : compileKwC n env s1 rest with ⟨r2, s2⟩
            rcases ht2 : compileKwC n env t1 rest with ⟨q2, t2⟩
            have h2 := ihK env s1 t1 rest
            rw [hs2, ht2] at h2; simp only at h2
            subst h1; subst h2
            cases r2 <;> simp [compileKwC, hs1, ht1, hs2, ht2]
          all_goals rfl
    have hCall : ∀ env s t f, (callC (n + 1) env s f).1 = (callC (n + 1) env t f).1 := by
      intro env s t f
      cases f with
      | tupleV xs =>
        cases xs with
        | nil => rfl
        | cons head rest =>
          cases hmn : methodName head with
          | some mn =>
            rcases hs1 : compileArgsC n env s (rest.takeWhile fun a => !isColonWord a)
              with ⟨ps1, s1⟩
            rcases ht1 : compileArgsC n env t (rest.takeWhile fun a => !isColonWord a)
              with ⟨pt1, t1⟩
            have h1 := ihA env s t (rest.takeWhile fun a => !isColonWord a)
            rw [hs1, ht1] at h1; simp only at h1
            rcases hs2 : compileKwC n env s1 ((rest.dropWhile fun a => !isColonWord a).drop 1)
              with ⟨rs, s2⟩
            rcases ht2 : compileKwC n env t1 ((rest.dropWhile fun a => !isColonWord a).drop 1)
              with ⟨rt, t2⟩
            have h2 := ihK env s1 t1 ((rest.dropWhile fun a => !isColonWord a).drop 1)
            rw [hs2, ht2] at h2; simp only at h2
            subst h1; subst h2
            cases rs with
            | error e => simp only [callC, hmn, hs1, ht1, hs2, ht2]
            | ok kwTs =>
              cases hpk : ps1 ++ kwTs <;>
                simp only [callC, hmn, hs1, ht1, hs2, ht2, hpk]
          | none =>
            rcases hs0 : formC n env s head with ⟨a0, s0⟩
            rcases ht0 : formC n env t head with ⟨b0, t0⟩
            have h0 := ihF env s t head
            rw [hs0, ht0] at h0; simp only at h0
            rcases hs1 : compileArgsC n env s0 (rest.takeWhile fun a => !isColonWord a)
              with ⟨ps1, s1⟩
            rcases ht1 : compileArgsC n env t0 (rest.takeWhile fun a => !isColonWord a)
              with ⟨pt1, t1⟩
            have h1 := ihA env s0 t0 (rest.takeWhile fun a => !isColonWord a)
            rw [hs1, ht1] at h1; simp only at h1
            rcases hs2 : compileKwC n env s1 ((rest.dropWhile fun a => !isColonWord a).drop 1)
              with ⟨rs, s2⟩
            rcases ht2 : compileKwC n env t1 ((rest.dropWhile fun a => !isColonWord a).drop 1)
              with ⟨rt, t2⟩
            have h2 := ihK env s1 t1 ((rest.dropWhile fun a => !isColonWord a).drop 1)
            rw [hs2, ht2] at h2; simp only at h2
            subst h0; subst h1; subst h2
            cases rs <;> simp only [callC, hmn, hs0, ht0, hs1, ht1, hs2, ht2]
      | _ => rfl
    have hMacroE : ∀ env s t f,
        (macroExpandC (n + 1) env s f).1 = (macroExpandC (n + 1) env t f).1 := by
      intro env s t f
      cases f with
      | tupleV xs =>
        cases xs with
        | nil => rfl
        | cons x0 tail =>
          cases x0
          case strV h =>
            cases hfm : findMacroDef env h with
            | error e => simp [macroExpandC, hfm]
            | ok od =>
              cases od with
              | none => simp [macroExpandC, hfm]
              | some m =>
                cases ham : applyMacroDef m tail (some env.ns) with
                | error e => simp [macroExpandC, hfm, ham]
                | ok expansion =>
                  rcases hs1 : formC n env { s with nsVar := some env.ns } expansion
                    with ⟨a1, s1⟩
                  rcases ht1 : formC n env { t with nsVar := some env.ns } expansion
                    with ⟨b1, t1⟩
                  have h1 := ihF env { s with nsVar := some env.ns }
                    { t with nsVar := some env.ns } expansion
                  rw [hs1, ht1] at h1; simp only at h1
                  simp [macroExpandC, hfm, ham, hs1, ht1, h1]
          all_goals rfl
      | _ => rfl
    have hInvoc : ∀ env s t f, (invocC (n + 1) env s f).1 = (invocC (n + 1) env t f).1 := by
      intro env s t f
      cases f with
      | tupleV xs =>
        cases xs with
        | nil => rfl
        | cons x0 tail =>
          cases x0
          case strV h =>
            rcases hs1 : macroExpandC n env s (.tupleV (.strV h :: tail)) with ⟨rs, s1⟩
            rcases ht1 : macroExpandC n env t (.tupleV (.strV h :: tail)) with ⟨rt, t1⟩
            have h1 := ihM env s t (.tupleV (.strV h :: tail))
            rw [hs1, ht1] at h1; simp only at h1
            subst h1
            cases rs with
            | none =>
              simpa [invocC, hs1, ht1] using
                ihC env s1 t1 (.tupleV (.strV (replaceFirst h autoMarker "..") :: tail))
            | some r =>
              by_cases hr : r = ""
              · simpa [invocC, hs1, ht1, hr] using
                  ihC env s1 t1 (.tupleV (.strV (replaceFirst h autoMarker "..") :: tail))
              · simp [invocC, hs1, ht1, hr]
          all_goals rfl
      | _ => rfl
    have hPP : ∀ env s t ps,
        (paramPairsC (n + 1) env s ps).1 = (paramPairsC (n + 1) env t ps).1 := by
      intro env s t ps
      cases ps with
      | nil => rfl
      | cons k ps1 =>
        cases ps1 with
        | nil => rfl
        | cons v rest =>
          by_cases h1 : isStrEq k ":*"
          · rcases hs : paramPairsC n env s rest with ⟨r, s1⟩
            rcases ht : paramPairsC n env t rest with ⟨q, t1⟩
            have hr := ihPP env s t rest
            rw [hs, ht] at hr; simp only at hr
            subst hr
            cases r <;> simp [paramPairsC, h1, hs, ht]
          · by_cases h2 : isStrEq k ":/"
            · rcases hs : paramPairsC n env s rest with ⟨r, s1⟩
              rcases ht : paramPairsC n env t rest with ⟨q, t1⟩
              have hr := ihPP env s t rest
              rw [hs, ht] at hr; simp only at hr
              subst hr
              cases r <;> simp [paramPairsC, h1, h2, hs, ht]
            · by_cases h3 : isStrEq k ":**"
              · rcases hs : paramPairsC n env s rest with ⟨r, s1⟩
                rcases ht : paramPairsC n env t rest with ⟨q, t1⟩
                have hr := ihPP env s t rest
                rw [hs, ht] at hr; simp only at hr
                subst hr
                cases r <;> simp [paramPairsC, h1, h2, h3, hs, ht]
              · by_cases h4 : isStrEq v ":?"
                · rcases hs : paramPairsC n env s rest with ⟨r, s1⟩
                  rcases ht : paramPairsC n env t rest with ⟨q, t1⟩
                  have hr := ihPP env s t rest
                  rw [hs, ht] at hr; simp only at hr
                  subst hr
                  simp only [paramPairsC, h1, h2, h3, h4, hs, ht]
                  cases k <;> cases r <;> simp
                · rcases hv : formC n env s v with ⟨a1, s1⟩
                  rcases htv : formC n env t v with ⟨b1, t1⟩
                  have hveq := ihF env s t v
                  rw [hv, htv] at hveq; simp only at hveq
                  rcases hs : paramPairsC n env s1 rest with ⟨r, s2⟩
                  rcases ht : paramPairsC n env t1 rest with ⟨q, t2⟩
                  have hr := ihPP env s1 t1 rest
                  rw [hs, ht] at hr; simp only at hr
                  subst hveq; subst hr
                  cases r <;> simp [paramPairsC, h1, h2, h3, h4, hv, htv, hs, ht]
    have hParams : ∀ env s t ps,
        (paramsC (n + 1) env s ps).1 = (paramsC (n + 1) env t ps).1 := by
      intro env s t ps
      cases hrs : renderSingles (ps.takeWhile fun a => !isColonWord a) with
      | error e => simp [paramsC, hrs]
      | ok sts =>
        rcases hs1 : paramPairsC n env s ((ps.dropWhile fun a => !isColonWord a).drop 1)
          with ⟨r1, s1⟩
        rcases ht1 : paramPairsC n env t ((ps.dropWhile fun a => !isColonWord a).drop 1)
          with ⟨q1, t1⟩
        have h1 := ihPP env s t ((ps.dropWhile fun a => !isColonWord a).drop 1)
        rw [hs1, ht1] at h1; simp only at h1
        subst h1
        cases r1 <;> simp only [paramsC, hrs, hs1, ht1]
    have hBody : ∀ env s t body,
        (bodyC (n + 1) env s body).1 = (bodyC (n + 1) env t body).1 := by
      intro env s t body
      by_cases hl : 1 < body.length
      · rcases hs1 : compileArgsC n env s body with ⟨as1, s1⟩
        rcases ht1 : compileArgsC n env t body with ⟨bs1, t1⟩
        have h1 := ihA env s t body
        rw [hs1, ht1] at h1; simp only at h1
        simp [bodyC, hl, hs1, ht1, h1]
      · cases body with
        | nil => rfl
        | cons b brest =>
          cases brest with
          | cons c crest => simp at hl
          | nil =>
            rcases hs1 : formC n env s b with ⟨a1, s1⟩
            rcases ht1 : formC n env t b with ⟨b1, t1⟩
            have h1 := ihF env s t b
            rw [hs1, ht1] at h1; simp only at h1
            simp [bodyC, hs1, ht1, h1]
    have hFunc : ∀ env s t f,
        (functionC (n + 1) env s f).1 = (functionC (n + 1) env t f).1 := by
      intro env s t f
      cases f with
      | tupleV xs =>
        cases xs with
        | nil => rfl
        | cons fn xs1 =>
          cases xs1 with
          | nil => rfl
          | cons params body =>
            by_cases hfn : isStrEq fn "lambda"
            · cases hie : iterElems params with
              | error e => simp [functionC, hfn, hie]
              | ok ps =>
                rcases hs1 : paramsC n env s ps with ⟨r1, s1⟩
                rcases ht1 : paramsC n env t ps with ⟨q1, t1⟩
                have h1 := ihP env s t ps
                rw [hs1, ht1] at h1; simp only at h1
                subst h1
                cases r1 with
                | error e => simp [functionC, hfn, hie, hs1, ht1]
                | ok pts =>
                  rcases hs2 : bodyC n env s1 body with ⟨b2, s2⟩
                  rcases ht2 : bodyC n env t1 body with ⟨c2, t2⟩
                  have h2 := ihB env s1 t1 body
                  rw [hs2, ht2] at h2; simp only at h2
                  simp [functionC, hfn, hie, hs1, ht1, hs2, ht2, h2]
            · simp [functionC, hfn]
      | _ => rfl
    have hSpecial : ∀ env s t f,
        (specialC (n + 1) env s f).1 = (specialC (n + 1) env t f).1 := by
      intro env s t f
      cases f with
      | tupleV xs =>
        cases xs with
        | nil => rfl
        | cons x0 rest =>
          by_cases hq : isStrEq x0 "quote"
          · cases rest <;> simp [specialC, hq]
          · by_cases hl : isStrEq x0 "lambda"
            · simpa [specialC, hq, hl] using ihFn env s t (.tupleV (x0 :: rest))
            · simpa [specialC, hq, hl] using ihI env s t (.tupleV (x0 :: rest))
      | _ => rfl
    have hTuple : ∀ env s t f, (tupleC (n + 1) env s f).1 = (tupleC (n + 1) env t f).1 := by
      intro env s t f
      cases f with
      | tupleV xs =>
        cases xs with
        | nil => rfl
        | cons x0 rest =>
          cases x0
          case strV h => simpa [tupleC] using ihS env s t (.tupleV (.strV h :: rest))
          all_goals simpa [tupleC] using ihC env s t (.tupleV (_ :: rest))
      | _ => rfl
    exact ⟨hForm, hTuple, hSpecial, hInvoc, hMacroE, hCall, hFunc, hParams, hPP, hBody,
      hArgs, hKw⟩

/-! ## Stack discipline of the `NS` context variable

Every compiling function leaves the `NS` context variable exactly as it
found it: the only writer is the macro-expansion step, which saves the
previous value, sets the current namespace, and restores the saved
value on every exit path — normal, macro-raised, or error-marked
recompilation — mirroring the `try`/`finally` of
`Compiler.macro_context`. -/

/-- All twelve compiling functions preserve the `NS` context variable
at fuel `n`. -/
def NsVarAt (n : Nat) : Prop :=
  (∀ env s f, (formC n env s f).2.nsVar = s.nsVar) ∧
  (∀ env s f, (tupleC n env s f).2.nsVar = s.nsVar) ∧
  (∀ env s f, (specialC n env s f).2.nsVar = s.nsVar) ∧
  (∀ env s f, (invocC n env s f).2.nsVar = s.nsVar) ∧
  (∀ env s f, (macroExpandC n env s f).2.nsVar = s.nsVar) ∧
  (∀ env s f, (callC n env s f).2.nsVar = s.nsVar) ∧
  (∀ env s f, (functionC n env s f).2.nsVar = s.nsVar) ∧
  (∀ env s ps, (paramsC n env s ps).2.nsVar = s.nsVar) ∧
  (∀ env s ps, (paramPairsC n env s ps).2.nsVar = s.nsVar) ∧
  (∀ env s body, (bodyC n env s body).2.nsVar = s.nsVar) ∧
  (∀ env s xs, (compileArgsC n env s xs).2.nsVar = s.nsVar) ∧
  (∀ env s ps, (compileKwC n env s ps).2.nsVar = s.nsVar)

theorem nsVarAll : ∀ n, NsVarAt n := by
  intro n
  induction n with
  | zero =>
    refine ⟨?_, ?_, ?_, ?_, ?_, ?_, ?_, ?_, ?_, ?_, ?_, ?_⟩ <;> intro env s x <;> rfl
  | succ n ih =>
    obtain ⟨ihF, ihT, ihS, ihI, ihM, ihC, ihFn, ihP, ihPP, ihB, ihA, ihK⟩ := ih
    have hForm : ∀ env s f, (formC (n + 1) env s f).2.nsVar = s.nsVar := by
      intro env s f
      cases f with
      | strV s0 => by_cases h : strStartsWith s0 ":" <;> simp [formC, h]
      | tupleV xs =>
        cases xs with
        | nil => rfl
        | cons a as => simpa [formC] using ihT env s (.tupleV (a :: as))
      | _ => rfl
    have hArgs : ∀ env s xs, (compileArgsC (n + 1) env s xs).2.nsVar = s.nsVar := by
      intro env s xs
      cases xs with
      | nil => rfl
      | cons x rest =>
        rcases hs1 : formC n env s x with ⟨a1, s1⟩
        have h1 := ihF env s x
        rw [hs1] at h1; simp only at h1
        rcases hs2 : compileArgsC n env s1 rest with ⟨as2, s2⟩
        have h2 := ihA env s1 rest
        rw [hs2] at h2; simp only at h2
        simp [compileArgsC, hs1, hs2, h1, h2]
    have hKw : ∀ env s ps, (compileKwC (n + 1) env s ps).2.nsVar = s.nsVar := by
      intro env s ps
      cases ps with
      | nil => rfl
      | cons k ps1 =>
        cases ps1 with
        | nil => rfl
        | cons v rest =>
          cases k
          case strV ks =>
            rcases hs1 : formC n env s v with ⟨a1, s1⟩
            have h1 := ihF env s v
            rw [hs1] at h1; simp only at h1
            rcases hs2 : compileKwC n env s1 rest with ⟨r2, s2⟩
            have h2 := ihK env s1 rest
            rw [hs2] at h2; simp only at h2
            cases r2 <;> simp [compileKwC, hs1, hs2, h1, h2]
          all_goals rfl
    have hCall : ∀ env s f, (callC (n + 1) env s f).2.nsVar = s.nsVar := by
      intro env s f
      cases f with
      | tupleV xs =>
        cases xs with
        | nil => rfl
        | cons head rest =>
          cases hmn : methodName head with
          | some mn =>
            rcases hs1 : compileArgsC n env s (rest.takeWhile fun a => !isColonWord a)
              with ⟨ps1, s1⟩
            have h1 := ihA env s (rest.takeWhile fun a => !isColonWord a)
            rw [hs1] at h1; simp only at h1
            rcases hs2 : compileKwC n env s1 ((rest.dropWhile fun a => !isColonWord a).drop 1)
              with ⟨rs, s2⟩
            have h2 := ihK env s1 ((rest.dropWhile fun a => !isColonWord a).drop 1)
            rw [hs2] at h2; simp only at h2
            cases rs with
            | error e =>
              simp only [callC, hmn, hs1, hs2]
              simp [h1, h2]
            | ok kwTs =>
              cases hpk : ps1 ++ kwTs <;>
                simp only [callC, hmn, hs1, hs2, hpk] <;> simp [h1, h2]
          | none =>
            rcases hs0 : formC n env s head with ⟨a0, s0⟩
            have h0 := ihF env s head
            rw [hs0] at h0; simp only at h0
            rcases hs1 : compileArgsC n env s0 (rest.takeWhile fun a => !isColonWord a)
              with ⟨ps1, s1⟩
            have h1 := ihA env s0 (rest.takeWhile fun a => !isColonWord a)
            rw [hs1] at h1; simp only at h1
            rcases hs2 : compileKwC n env s1 ((rest.dropWhile fun a => !isColonWord a).drop 1)
              with ⟨rs, s2⟩
            have h2 := ihK env s1 ((rest.dropWhile fun a => !isColonWord a).drop 1)
            rw [hs2] at h2; simp only at h2
            cases rs <;> simp only [callC, hmn, hs0, hs1, hs2] <;> simp [h0, h1, h2]
      | _ => rfl
    have hMacroE : ∀ env s f, (macroExpandC (n + 1) env s f).2.nsVar = s.nsVar := by
      intro env s f
      cases f with
      | tupleV xs =>
        cases xs with
        | nil => rfl
        | cons x0 tail =>
          cases x0
          case strV h =>
            cases hfm : findMacroDef env h with
            | error e => simp [macroExpandC, hfm]
            | ok od =>
              cases od with
              | none => simp [macroExpandC, hfm]
              | some m =>
                cases ham : applyMacroDef m tail (some env.ns) with
                | error e => simp [macroExpandC, hfm, ham]
                | ok expansion =>
                  rcases hs1 : formC n env { s with nsVar := some env.ns } expansion
                    with ⟨a1, s1⟩
                  simp [macroExpandC, hfm, ham, hs1]
          all_goals rfl
      | _ => rfl
    have hInvoc : ∀ env s f, (invocC (n + 1) env s f).2.nsVar = s.nsVar := by
      intro env s f
      cases f with
      | tupleV xs =>
        cases xs with
        | nil => rfl
        | cons x0 tail =>
          cases x0
          case strV h =>
            rcases hs1 : macroExpandC n env s (.tupleV (.strV h :: tail)) with ⟨rs, s1⟩
            have h1 := ihM env s (.tupleV (.strV h :: tail))
            rw [hs1] at h1; simp only at h1
            have hc := ihC env s1 (.tupleV (.strV (replaceFirst h autoMarker "..") :: tail))
            cases rs with
            | none => simp [invocC, hs1, hc, h1]
            | some r =>
              by_cases hr : r = ""
              · simp [invocC, hs1, hr, hc, h1]
              · simp [invocC, hs1, hr, h1]
          all_goals rfl
      | _ => rfl
    have hPP : ∀ env s ps, (paramPairsC (n + 1) env s ps).2.nsVar = s.nsVar := by
      intro env s ps
      cases ps with
      | nil => rfl
      | cons k ps1 =>
        cases ps1 with
        | nil => rfl
        | cons v rest =>
          by_cases h1 : isStrEq k ":*"
          · rcases hs : paramPairsC n env s rest with ⟨r, s1⟩
            have hr := ihPP env s rest
            rw [hs] at hr; simp only at hr
            cases r <;> simp [paramPairsC, h1, hs, hr]
          · by_cases h2 : isStrEq k ":/"
            · rcases hs : paramPairsC n env s rest with ⟨r, s1⟩
              have hr := ihPP env s rest
              rw [hs] at hr; simp only at hr
              cases r <;> simp [paramPairsC, h1, h2, hs, hr]
            · by_cases h3 : isStrEq k ":**"
              · rcases hs : paramPairsC n env s rest with ⟨r, s1⟩
                have hr := ihPP env s rest
                rw [hs] at hr; simp only at hr
                cases r <;> simp [paramPairsC, h1, h2, h3, hs, hr]
              · by_cases h4 : isStrEq v ":?"
                · rcases hs : paramPairsC n env s rest with ⟨r, s1⟩
                  have hr := ihPP env s rest
                  rw [hs] at hr; simp only at hr
                  simp only [paramPairsC, h1, h2, h3, h4, hs]
                  cases k <;> cases r <;> simp [hr]
                · rcases hv : formC n env s v with ⟨a1, s1⟩
                  have hveq := ihF env s v
                  rw [hv] at hveq; simp only at hveq
                  rcases hs : paramPairsC n env s1 rest with ⟨r, s2⟩
                  have hr := ihPP env s1 rest
                  rw [hs] at hr; simp only at hr
                  cases r <;> simp [paramPairsC, h1, h2, h3, h4, hv, hs, hveq, hr]
    have hParams : ∀ env s ps, (paramsC (n + 1) env s ps).2.nsVar = s.nsVar := by
      intro env s ps
      cases hrs : renderSingles (ps.takeWhile fun a => !isColonWord a) with
      | error e => simp [paramsC, hrs]
      | ok sts =>
        rcases hs1 : paramPairsC n env s ((ps.dropWhile fun a => !isColonWord a).drop 1)
          with ⟨r1, s1⟩
        have h1 := ihPP env s ((ps.dropWhile fun a => !isColonWord a).drop 1)
        rw [hs1] at h1; simp only at h1
        cases r1 <;> simp only [paramsC, hrs, hs1] <;> simp [h1]
    have hBody : ∀ env s body, (bodyC (n + 1) env s body).2.nsVar = s.nsVar := by
      intro env s body
      by_cases hl : 1 < body.length
      · rcases hs1 : compileArgsC n env s body with ⟨as1, s1⟩
        have h1 := ihA env s body
        rw [hs1] at h1; simp only at h1
        simp [bodyC, hl, hs1, h1]
      · cases body with
        | nil => rfl
        | cons b brest =>
          cases brest with
          | cons c crest => simp at hl
          | nil =>
            rcases hs1 : formC n env s b with ⟨a1, s1⟩
            have h1 := ihF env s b
            rw [hs1] at h1; simp only at h1
            simp [bodyC, hs1, h1]
    have hFunc : ∀ env s f, (functionC (n + 1) env s f).2.nsVar = s.nsVar := by
      intro env s f
      cases f with
      | tupleV xs =>
        cases xs with
        | nil => rfl
        | cons fn xs1 =>
          cases xs1 with
          | nil => rfl
          | cons params body =>
            by_cases hfn : isStrEq fn "lambda"
            · cases hie : iterElems params with
              | error e => simp [functionC, hfn, hie]
              | ok ps =>
                rcases hs1 : paramsC n env s ps with ⟨r1, s1⟩
                have h1 := ihP env s ps
                rw [hs1] at h1; simp only at h1
                cases r1 with
                | error e => simp [functionC, hfn, hie, hs1, h1]
                | ok pts =>
                  rcases hs2 : bodyC n env s1 body with ⟨b2, s2⟩
                  have h2 := ihB env s1 body
                  rw [hs2] at h2; simp only at h2
                  simp [functionC, hfn, hie, hs1, hs2, h1, h2]
            · simp [functionC, hfn]
      | _ => rfl
    have hSpecial : ∀ env s f, (specialC (n + 1) env s f).2.nsVar = s.nsVar := by
      intro env s f
      cases f with
      | tupleV xs =>
        cases xs with
        | nil => rfl
        | cons x0 rest =>
          by_cases hq : isStrEq x0 "quote"
          · cases rest <;> simp [specialC, hq]
          · by_cases hl : isStrEq x0 "lambda"
            · simpa [specialC, hq, hl] using ihFn env s (.tupleV (x0 :: rest))
            · simpa [specialC, hq, hl] using ihI env s (.tupleV (x0 :: rest))
      | _ => rfl
    have hTuple : ∀ env s f, (tupleC (n + 1) env s f).2.nsVar = s.nsVar := by
      intro env s f
      cases f with
      | tupleV xs =>
        cases xs with
        | nil => rfl
        | cons x0 rest =>
          cases x0
          case strV h => simpa [tupleC] using ihS env s (.tupleV (.strV h :: rest))
          all_goals simpa [tupleC] using ihC env s (.tupleV (_ :: rest))
      | _ => rfl
    exact ⟨hForm, hTuple, hSpecial, hInvoc, hMacroE, hCall, hFunc, hParams, hPP, hBody,
      hArgs, hKw⟩

/-! ## Claim theorems -/

/-- Unfolding of `Compiler.quoted` off the `Ellipsis` special case. -/
theorem quoted_of_ne_ellipsis (v : Obj) (h : v ≠ .ellipsis) :
    quoted v =
      match literalEval (quotedLit v) with
      | some w => if objEqB w v then quotedLit v else pickleExpr v
      | none => pickleExpr v := by
  cases v <;> first | rfl | exact absurd rfl h

/-- C1: for every self-denoting value whose emitted text is accepted by
the round-trip check (`ast.literal_eval` parses the candidate literal
back to an equal value), evaluating the literal encoder's output with
the side-effect-free literal evaluator yields a value equal to the
original value. -/
theorem claim1_literal_roundtrip (v : Obj)
    (h : literalEval (quotedLit v) = some v) :
    literalEval (quoted v) = some v := by
  cases v with
  | ellipsis =>
    rw [show literalEval (quotedLit Obj.ellipsis) = none from rfl] at h
    exact Option.noConfusion h
  | _ =>
    rw [quoted_of_ne_ellipsis _ (by intro hc; cases hc), h]
    simpa [(objEqB_eq_true_iff _ _).mpr rfl] using h

/-- C1 witness: the integer `5` round-trips through `(5)`. -/
theorem claim1_witness :
    literalEval (quotedLit (Obj.intV 5)) = some (Obj.intV 5) ∧
      literalEval (quoted (Obj.intV 5)) = some (Obj.intV 5) :=
  ⟨rfl, claim1_literal_roundtrip (Obj.intV 5) rfl⟩

/-- C2: every value whose candidate literal fails the round-trip check
is serialized, never raising: protocol 0 (the most portable,
human-auditable text protocol) is attempted first and the highest
binary protocol is used only if that serialization itself fails; the
emitted text is a deserialization expression annotated with a comment
carrying the value's `repr`; and deserializing the embedded bytes
reproduces a value equal to the original. -/
theorem claim2_pickle_fallback (v : Obj)
    (hne : v ≠ .ellipsis)
    (hfail : literalEval (quotedLit v) ≠ some v) :
    quoted v = pickleExpr v ∧
    pickleExpr v = "__import__('pickle').loads(  # " ++ reprV v ++ "\n    " ++
      reprBytes (pickleBytes v) ++ "\n)" ∧
    loadsOps (pickleBytes v) = some v ∧
    (∀ b, dumpsProto0 v = some b → pickleBytes v = pickleOptimize b) := by
  refine ⟨?_, rfl, loadsOps_pickleBytes v, ?_⟩
  · rw [quoted_of_ne_ellipsis v hne]
    cases hlv : literalEval (quotedLit v) with
    | none => rfl
    | some w =>
      by_cases hw : objEqB w v
      · have hwv : w = v := (objEqB_eq_true_iff w v).mp hw
        rw [hwv] at hlv
        exact absurd hlv hfail
      · simp [hw]
  · intro b hb
    simp [pickleBytes, hb]

/-- C2 witness: `float('nan')`, whose literal `(nan)` is rejected by the
literal evaluator, goes through the pickle fallback and deserializes
back to itself. -/
theorem claim2_witness :
    literalEval (quotedLit Obj.nan) = none ∧
    quoted Obj.nan = pickleExpr Obj.nan ∧
    loadsOps (pickleBytes Obj.nan) = some Obj.nan := by
  have h := claim2_pickle_fallback Obj.nan (by intro hc; cases hc)
    (by intro hc; rw [show literalEval (quotedLit Obj.nan) = none from rfl] at hc
        exact Option.noConfusion hc)
  exact ⟨rfl, h.1, h.2.2.1⟩

/-- C4: compiling the same form twice against an unchanged Namespace
yields textually identical output both times — the emitted text is a
pure function of the form and the namespace state at invocation time,
so a second run started from the mutable state the first run left
behind produces the same text. -/
theorem claim4_compile_deterministic (n : Nat) (env : CEnv) (s : CSt) (f : Obj) :
    (formC n env ((formC n env s f).2) f).1 = (formC n env s f).1 :=
  (pureAll n).1 env ((formC n env s f).2) s f

/-- C5: the compile-context reference obeys strict stack discipline:
after any macro-expansion step — including one whose expansion or
recompilation raises — the `NS` context variable equals its value from
before the step. -/
theorem claim5_context_restored (n : Nat) (env : CEnv) (s : CSt) (f : Obj) :
    (macroExpandC n env s f).2.nsVar = s.nsVar :=
  (nsVarAll n).2.2.2.2.1 env s f

/-- The default compiler environment (`Compiler()` with a fresh
`__main__` namespace) and initial mutable state. -/
def mainEnv : CEnv :=
  { qualname := "__main__", ns := { name := "__main__", macroDefs := none }, mods := [] }

/-- Initial mutable state: no recorded error, `NS` at its default. -/
def initSt : CSt := { err := false, nsVar := none }

/-- C6 counterexample: compiling the quote form `('quote', 1, 2)` with
three elements (two operands) succeeds with the first operand's literal
encoding and no recorded error, so an operand count above one is not a
compile error. -/
theorem claim6_counterexample :
    formC 9 mainEnv initSt (.tupleV [.strV "quote", .intV 1, .intV 2]) =
      ("(1)", initSt) := rfl

/-- C6 amended: a quote form with zero operands is a compile error (the
`IndexError` from `form[1]` is recorded by `_trace`); with one or more
operands the compiler returns the first operand's literal encoding and
silently ignores any extra operands. -/
theorem claim6_quote_arity_amended (n : Nat) (env : CEnv) (s : CSt) (op : Obj)
    (extra : List Obj) :
    formC (n + 3) env s (.tupleV [.strV "quote"]) =
      (errText "special" .indexError (.tupleV [.strV "quote"]), { s with err := true }) ∧
    formC (n + 3) env s (.tupleV (.strV "quote" :: op :: extra)) = (quoted op, s) := by
  constructor <;> simp [formC, tupleC, specialC, isStrEq]

/-- C8: a qualified symbol whose module part equals the currently
compiling unit's own qualified name resolves through a global-lookup
expression for the first attribute of the path (so the generated code
cannot be captured by a same-named local binding); every other
qualified symbol compiles to a dynamic-import expression followed by
the chained attribute path. -/
theorem claim8_self_qualified_globals (env : CEnv) (sym p0 p1 : String)
    (hraw : isRawSymbol sym = false)
    (hsplit : splitOnce sym ".." = some (p0, p1)) :
    (p0 = env.qualname →
      symbolC env sym =
        match splitOnce p1 "." with
        | some (c0, crest) => globalsRef c0 ++ "." ++ crest
        | none => globalsRef p1) ∧
    (p0 ≠ env.qualname → symbolC env sym = importExpr p0 p1) := by
  constructor <;> intro hq
  · cases hc : splitOnce p1 "." <;> simp [symbolC, hraw, hsplit, hq, hc]
  · simp [symbolC, hraw, hsplit, hq]

/-- Environment of a compilation unit named `mymod`. -/
def modEnv : CEnv :=
  { qualname := "mymod", ns := { name := "mymod", macroDefs := none }, mods := [] }

/-- C8 witness: inside `mymod`, the symbol `mymod..foo.bar` compiles to
the shadowing-proof global lookup, and `other..foo.bar` to a dynamic
import. -/
theorem claim8_witness :
    symbolC modEnv "mymod..foo.bar" = "__import__('builtins').globals()['foo'].bar" ∧
    symbolC modEnv "other..foo.bar" = "__import__('other').foo.bar" :=
  ⟨((claim8_self_qualified_globals modEnv "mymod..foo.bar" "mymod" "foo.bar"
      rfl rfl).1 rfl).trans rfl,
   ((claim8_self_qualified_globals modEnv "other..foo.bar" "other" "foo.bar"
      rfl rfl).2 (by decide)).trans rfl⟩

/-- C9: during qualified macro resolution, a head carrying the
auto-qualification placeholder marker whose lookup fails with a missing
name or attribute (`KeyError`/`AttributeError`) is treated as naming no
macro, so the dispatcher falls through to compiling a call; a
`KeyError`/`AttributeError` under the plain macro marker, or any
non-`KeyError`/`AttributeError` failure, is raised. -/
theorem claim9_auto_marker_tolerance (env : CEnv) (head pre post : String) (e : PyExc) :
    (reSplitMacroHead head = some (pre, autoMarker, post) →
     resolveQualified env (replaceFirst head autoMarker macroMarker) pre post = .error e →
     isKeyOrAttrErr e = true →
     findMacroDef env head = .ok none ∧
       ∀ n s tail, macroExpandC (n + 1) env s (.tupleV (.strV head :: tail)) = (none, s)) ∧
    (reSplitMacroHead head = some (pre, macroMarker, post) →
     resolveQualified env (replaceFirst head autoMarker macroMarker) pre post = .error e →
     isKeyOrAttrErr e = true →
     findMacroDef env head = .error e) ∧
    (reSplitMacroHead head = some (pre, autoMarker, post) →
     resolveQualified env (replaceFirst head autoMarker macroMarker) pre post = .error e →
     isKeyOrAttrErr e = false →
     findMacroDef env head = .error e) := by
  have hmm : macroMarker ≠ autoMarker := by decide
  refine ⟨?_, ?_, ?_⟩ <;> intro h1 h2 h3
  · have hfind : findMacroDef env head = .ok none := by
      simp [findMacroDef, h1, h2, h3]
    refine ⟨hfind, ?_⟩
    intro n s tail
    simp [macroExpandC, hfind]
  · simp [findMacroDef, h1, h2, h3, hmm]
  · simp [findMacroDef, h1, h2, h3]

/-- Environment whose host import system holds a module `foo` without a
`_macro_` container. -/
def modsEnv : CEnv :=
  { qualname := "__main__", ns := { name := "__main__", macroDefs := none },
    mods := [("foo", { name := "foo", macroDefs := none })] }

/-- C9 witness: `foo..xAUTO_.bar` fails externally with
`AttributeError` and resolves to no macro, while `foo.._macro_.bar`
fails the same way and raises. -/
theorem claim9_witness :
    findMacroDef modsEnv "foo..xAUTO_.bar" = .ok none ∧
    findMacroDef modsEnv "foo.._macro_.bar" = .error (.attributeError "_macro_") :=
  ⟨((claim9_auto_marker_tolerance modsEnv "foo..xAUTO_.bar" "foo" "bar"
      (.attributeError "_macro_")).1 rfl rfl rfl).1,
   (claim9_auto_marker_tolerance modsEnv "foo.._macro_.bar" "foo" "bar"
      (.attributeError "_macro_")).2.1 rfl rfl rfl⟩

/-- Fall-through of the dispatcher to an ordinary call when the head
symbol names no special form and resolves to no macro, with the head's
first auto-qualification marker rewritten to a plain qualifier. -/
theorem formC_call_fallthrough (n : Nat) (env : CEnv) (s : CSt) (h : String)
    (tail : List Obj)
    (hq : h ≠ "quote") (hl : h ≠ "lambda")
    (hm : findMacroDef env h = .ok none) :
    formC (n + 5) env s (.tupleV (.strV h :: tail)) =
      callC (n + 1) env s
        (.tupleV (.strV (replaceFirst h autoMarker "..") :: tail)) := by
  simp [formC, tupleC, specialC, invocC, macroExpandC, isStrEq, hq, hl, hm]

/-- C10: when a compound form's head symbol does not resolve to a
macro, the dispatcher rewrites the head by replacing the first
occurrence of the auto-qualification marker `..xAUTO_.` with the plain
qualifier `..` and compiles the form as an ordinary call on the
rewritten head. -/
theorem claim10_auto_rewrite (n : Nat) (env : CEnv) (s : CSt) (h : String)
    (tail : List Obj)
    (hq : h ≠ "quote") (hl : h ≠ "lambda")
    (hm : findMacroDef env h = .ok none) :
    formC (n + 5) env s (.tupleV (.strV h :: tail)) =
      callC (n + 1) env s
        (.tupleV (.strV (replaceFirst h autoMarker "..") :: tail)) :=
  formC_call_fallthrough n env s h tail hq hl hm

/-- C10 witness: with the auto-qualified macro unresolvable (module
`foo` has no macro container), `('foo..xAUTO_.f', 1)` compiles as the
call on the plainly qualified `foo..f`. -/
theorem claim10_witness :
    formC 9 modsEnv initSt (.tupleV [.strV "foo..xAUTO_.f", .intV 1]) =
      callC 5 modsEnv initSt (.tupleV [.strV "foo..f", .intV 1]) ∧
    formC 9 modsEnv initSt (.tupleV [.strV "foo..xAUTO_.f", .intV 1]) =
      ("__import__('foo').f(\n  (1))", initSt) := by
  have h := claim10_auto_rewrite 4 modsEnv initSt "foo..xAUTO_.f" [.intV 1]
    (by decide) (by decide) (by rfl)
  constructor
  · exact h.trans (by rfl)
  · exact h.trans (by rfl)

/-- Dispatch of a plain (non-control-word) symbol form. -/
theorem formC_symbol (m : Nat) (env : CEnv) (t : CSt) (x : String)
    (hx : strStartsWith x ":" = false) :
    formC (m + 1) env t (.strV x) = (symbolC env x, t) := by
  simp [formC, hx]

/-- C7 counterexample: the compiler renders a positional-unpack pair
occurring after a mapping-unpack pair without recording any error —
`('f', ':', ':**', 'm', ':*', 'xs')` compiles to text with `*` after
`**`, so the compiler itself does not reject this ordering. -/
theorem claim7_counterexample :
    formC 9 mainEnv initSt
      (.tupleV [.strV "f", .strV ":", .strV ":**", .strV "m", .strV ":*", .strV "xs"]) =
      ("f(\n  **m,\n  *xs)", initSt) := rfl

/-- C7 amended: in the paired segment of a call form the unpacking
markers may repeat and are rendered after the positional arguments in
source order, without reordering; the compiler performs no ordering
check of its own — a positional-unpack after a mapping-unpack is
rendered anyway (see the counterexample), and only the host grammar
rejects the resulting text when it is later compiled for execution. -/
theorem claim7_call_order_amended (n : Nat) (env : CEnv) (s : CSt)
    (p q u w y z : String)
    (hgm : findMacroDef env "f" = .ok none)
    (hp : strStartsWith p ":" = false) (hq2 : strStartsWith q ":" = false)
    (hu : strStartsWith u ":" = false) (hw : strStartsWith w ":" = false)
    (hy : strStartsWith y ":" = false) (hz : strStartsWith z ":" = false)
    (hps : symbolC env p = p) (hqs : symbolC env q = q)
    (hus : symbolC env u = u) (hws : symbolC env w = w)
    (hys : symbolC env y = y) (hzs : symbolC env z = z) :
    formC (n + 12) env s
      (.tupleV [.strV "f", .strV p, .strV q, .strV ":",
                .strV ":*", .strV u, .strV "k", .strV w,
                .strV ":*", .strV y, .strV ":**", .strV z]) =
      ("f(" ++ joinArgs [p, q, "*" ++ u, "k=" ++ w, "*" ++ y, "**" ++ z] ++ ")", s) := by
  have hpc : isColonWord (.strV p) = false := by
    simp only [isColonWord, decide_eq_false_iff_not]
    intro hh; rw [hh] at hp; exact absurd hp (by decide)
  have hqc : isColonWord (.strV q) = false := by
    simp only [isColonWord, decide_eq_false_iff_not]
    intro hh; rw [hh] at hq2; exact absurd hq2 (by decide)
  have hfp : ∀ m t, formC (m + 1) env t (.strV p) = (p, t) := fun m t => by
    rw [formC_symbol m env t p hp, hps]
  have hfq : ∀ m t, formC (m + 1) env t (.strV q) = (q, t) := fun m t => by
    rw [formC_symbol m env t q hq2, hqs]
  have hfu : ∀ m t, formC (m + 1) env t (.strV u) = (u, t) := fun m t => by
    rw [formC_symbol m env t u hu, hus]
  have hfw : ∀ m t, formC (m + 1) env t (.strV w) = (w, t) := fun m t => by
    rw [formC_symbol m env t w hw, hws]
  have hfy : ∀ m t, formC (m + 1) env t (.strV y) = (y, t) := fun m t => by
    rw [formC_symbol m env t y hy, hys]
  have hfz : ∀ m t, formC (m + 1) env t (.strV z) = (z, t) := fun m t => by
    rw [formC_symbol m env t z hz, hzs]
  have hstep : formC (n + 12) env s
      (.tupleV (.strV "f" :: [.strV p, .strV q, .strV ":",
        .strV ":*", .strV u, .strV "k", .strV w,
        .strV ":*", .strV y, .strV ":**", .strV z])) =
      callC (n + 8) env s
        (.tupleV (.strV (replaceFirst "f" autoMarker "..") :: [.strV p, .strV q, .strV ":",
          .strV ":*", .strV u, .strV "k", .strV w,
          .strV ":*", .strV y, .strV ":**", .strV z])) :=
    formC_call_fallthrough (n + 7) env s "f" _ (by decide) (by decide) hgm
  rw [hstep, show replaceFirst "f" autoMarker ".." = "f" from rfl]
  have hfhead : formC (n + 7) env s (.strV "f") = ("f", s) :=
    (formC_symbol (n + 6) env s "f" rfl).trans (by rfl)
  have hargsL : compileArgsC (n + 7) env s [Obj.strV p, Obj.strV q] = ([p, q], s) := by
    simp [compileArgsC, hfp, hfq]
  have hkwL : compileKwC (n + 7) env s
      [Obj.strV ":*", Obj.strV u, Obj.strV "k", Obj.strV w,
       Obj.strV ":*", Obj.strV y, Obj.strV ":**", Obj.strV z] =
      (.ok ["*" ++ u, "k=" ++ w, "*" ++ y, "**" ++ z], s) := by
    simp [compileKwC, hfu, hfw, hfy, hfz]
  have hcolon : isColonWord (.strV ":") = true := rfl
  have hpos : List.takeWhile (fun a => !isColonWord a)
      [Obj.strV p, Obj.strV q, Obj.strV ":", Obj.strV ":*", Obj.strV u, Obj.strV "k",
       Obj.strV w, Obj.strV ":*", Obj.strV y, Obj.strV ":**", Obj.strV z] =
      [Obj.strV p, Obj.strV q] := by
    simp [List.takeWhile, hpc, hqc, hcolon]
  have hdrop : (List.dropWhile (fun a => !isColonWord a)
      [Obj.strV p, Obj.strV q, Obj.strV ":", Obj.strV ":*", Obj.strV u, Obj.strV "k",
       Obj.strV w, Obj.strV ":*", Obj.strV y, Obj.strV ":**", Obj.strV z]).drop 1 =
      [Obj.strV ":*", Obj.strV u, Obj.strV "k", Obj.strV w,
       Obj.strV ":*", Obj.strV y, Obj.strV ":**", Obj.strV z] := by
    simp [List.dropWhile, hpc, hqc, hcolon]
  simp only [callC, show methodName (Obj.strV "f") = none from rfl,
    hpos, hdrop, hfhead, hargsL, hkwL]
  rfl

/-- C7 witness for the amended claim. -/
theorem claim7_witness :
    formC 12 mainEnv initSt
      (.tupleV [.strV "f", .strV "a", .strV "b", .strV ":",
                .strV ":*", .strV "u1", .strV "k", .strV "w1",
                .strV ":*", .strV "y1", .strV ":**", .strV "z1"]) =
      ("f(\n  a,\n  b,\n  *u1,\n  k=w1,\n  *y1,\n  **z1)", initSt) :=
  (claim7_call_order_amended 0 mainEnv initSt "a" "b" "u1" "w1" "y1" "z1"
    rfl rfl rfl rfl rfl rfl rfl rfl rfl rfl rfl rfl rfl).trans rfl

/-- C3: when host execution of a compiled form raises, the pipeline's
behaviour is decided solely by whether the Namespace's `__name__`
equals `__main__`: in the entry-point Namespace the abort flag is set,
everything compiled so far (the failing text plus its commented-out
trace) is printed, and the process exits with status 1 without the
second form ever being compiled; in a library Namespace a
`PostCompileWarning` is recorded, the failing text and commented-out
trace are appended to the result, and compilation continues with the
subsequent form. -/
theorem claim3_pipeline_failure_policy (n : Nat) (p : PSt)
    (exec : String → Ns → ExecRes) (f1 f2 : Obj) (t1 : String) (c1 : CSt)
    (em etr : String) (ns2 : Ns)
    (hev : p.evaluate = true)
    (hab : p.abort = false)
    (hf1 : formC n p.toEnv p.cst f1 = (t1, c1))
    (hok : c1.err = false)
    (hex : exec t1 p.ns = .exc em etr ns2) :
    (p.ns.name = "__main__" →
      compileSeq n exec p [f1, f2] =
        .exited 1 (String.intercalate "\n\n" [t1, commentTrace etr])
          { p with cst := c1, ns := ns2, abort := true } ∧
      ∀ g, compileSeq n exec p [f1, g] = compileSeq n exec p [f1, f2]) ∧
    (p.ns.name ≠ "__main__" →
      compileSeq n exec p [f1, f2] =
        compileSeqAux n exec
          { p with
              cst := c1
              ns := ns2
              warnings := p.warnings ++ [warnText em t1 etr] }
          [t1, commentTrace etr] [f2] ∧
      ({ p with
          cst := c1
          ns := ns2
          warnings := p.warnings ++ [warnText em t1 etr] } : PSt).warnings =
        p.warnings ++ [warnText em t1 etr]) := by
  constructor
  · intro hname
    constructor
    · simp [compileSeq, compileSeqAux, hf1, hok, evalC, hev, hex, hname]
    · intro g
      simp [compileSeq, compileSeqAux, hf1, hok, evalC, hev, hex, hname]
  · intro hname
    constructor
    · simp [compileSeq, compileSeqAux, hf1, hok, evalC, hev, hex, hname, hab]
    · rfl

/-- A pipeline state over namespace `nm` with evaluation enabled. -/
def pipeSt (nm : String) : PSt :=
  { qualname := nm, ns := { name := nm, macroDefs := none }, mods := [],
    evaluate := true, cst := initSt, abort := false, warnings := [] }

/-- An exec model whose every execution raises. -/
def failExec : String → Ns → ExecRes :=
  fun _ ns => .exc "boom" "Traceback (most recent call last):\n boom" ns

/-- C3 witness: a two-form sequence whose first form's execution raises,
once under the entry-point Namespace (exits with status 1, second form
never compiled) and once under a library Namespace (warns and
continues, compiling the second form). -/
theorem claim3_witness :
    compileSeq 9 failExec (pipeSt "__main__") [.intV 1, .intV 2] =
      .exited 1
        ("(1)\n\n# Traceback (most recent call last):\n#  boom")
        { (pipeSt "__main__") with abort := true } ∧
    compileSeq 9 failExec (pipeSt "lib") [.intV 1, .intV 2] =
      .done
        ("(1)\n\n# Traceback (most recent call last):\n#  boom\n\n(2)\n\n# Traceback (most recent call last):\n#  boom")
        { (pipeSt "lib") with
            warnings :=
              [warnText "boom" "(1)" "Traceback (most recent call last):\n boom",
               warnText "boom" "(2)" "Traceback (most recent call last):\n boom"] } := by
  constructor
  · exact ((claim3_pipeline_failure_policy 9 (pipeSt "__main__") failExec
      (.intV 1) (.intV 2) "(1)" initSt "boom"
      "Traceback (most recent call last):\n boom"
      { name := "__main__", macroDefs := none }
      rfl rfl rfl rfl rfl).1 rfl).1.trans rfl
  · exact (((claim3_pipeline_failure_policy 9 (pipeSt "lib") failExec
      (.intV 1) (.intV 2) "(1)" initSt "boom"
      "Traceback (most recent call last):\n boom"
      { name := "lib", macroDefs := none }
      rfl rfl rfl rfl rfl).2 (by decide)).1).trans rfl

end Hissp
